import Mathlib

set_option maxHeartbeats 1000000

/-
Formal model of the rxnDB reaction-database processor
(src/rxnDB/data/processor.py, class RxnDBProcessor).

The reaction table is modelled as a `List Reaction`; the pandas id-filtered
views are modelled as `List.filter` over that list; the Python `set` values
are modelled as `Finset String`; the `_reaction_groups` dict (string keys,
assignment overwrites) is modelled as a function `String → Option Nat`.
-/

namespace RxnDB

/-- One row of the reaction table.  Only the columns inspected by the
modelled operations are kept: `id`, `reactants`, `products`.  After
`_precompute_phase_info` runs, the `reactants`/`products` cells are always
lists, and the tokens reaching the lookups are always strings, so the cells
are modelled as `List String` (the raw, possibly non-list cells are modelled
separately by `RawReaction` for the construction-time normalization). -/
structure Reaction where
  id : String
  reactants : List String
  products : List String
deriving DecidableEq, Repr

/-- Models `re.sub(r"^\d+\s*", "", phase).strip()` from `strip_coefficients`:
drop the leading run of digits (the `\s*` after it is absorbed by the strip),
then strip whitespace from both ends.  Implemented on the character list so
that it reduces in the kernel (`String.trim` is well-founded recursion). -/
def stripPhase (phase : String) : String :=
  String.mk ((((phase.data.dropWhile Char.isDigit).dropWhile
    Char.isWhitespace).reverse.dropWhile Char.isWhitespace).reverse)

/-- Models `RxnDBProcessor.strip_coefficients`: clean every (string) token,
then drop the tokens that became empty. -/
def strip_coefficients (phases : List String) : List String :=
  (phases.map stripPhase).filter (fun p => p != "")

/-- Models the per-token expression `strip_coefficients([tok])[0]` used by
`_precompute_phase_info`: `some` of the cleaned token, or `none` when the
token strips to the empty string — where the Python expression raises
`IndexError` (empty list indexed at 0), so no processor is built.
`WFTable` restricts table-quantified theorems to the non-faulting domain. -/
def cleanTok (tok : String) : Option String :=
  match strip_coefficients [tok] with
  | [] => none
  | c :: _ => some c

/-- Tables on which `_precompute_phase_info` completes without raising:
every reactant/product token survives coefficient stripping. -/
def WFTable (t : List Reaction) : Prop :=
  ∀ r ∈ t, (∀ tok ∈ r.reactants, stripPhase tok ≠ "") ∧ (∀ tok ∈ r.products, stripPhase tok ≠ "")

instance (t : List Reaction) : Decidable (WFTable t) := by
  unfold WFTable; infer_instance

/-- Extensional model of the `_reactant_lookup` dict built by
`_precompute_phase_info`: a phase maps to the set of ids of rows having some
reactant token that cleans to that phase (absent keys give the empty set,
matching `lookup.get(phase, set())`). -/
def reactant_lookup (t : List Reaction) (phase : String) : Finset String :=
  ((t.filter (fun r => r.reactants.any (fun tok => cleanTok tok == some phase))).map Reaction.id).toFinset

/-- Extensional model of the `_product_lookup` dict; see `reactant_lookup`. -/
def product_lookup (t : List Reaction) (phase : String) : Finset String :=
  ((t.filter (fun r => r.products.any (fun tok => cleanTok tok == some phase))).map Reaction.id).toFinset

/-- Models `RxnDBProcessor._get_ids_for_phases`: union over the requested
phases of the lookup entries; empty phase list gives the empty set. -/
def get_ids_for_phases (phases : List String) (lookup : String → Finset String) : Finset String :=
  if phases = [] then ∅
  else phases.foldl (fun acc p => acc ∪ lookup p) ∅

/-- Models `RxnDBProcessor.filter_by_reactants` (the `pd.DataFrame(columns=…)`
empty-result branch is the empty row list). -/
def filter_by_reactants (t : List Reaction) (phases : List String) : List Reaction :=
  if phases = [] then t
  else
    let matching := get_ids_for_phases phases (reactant_lookup t)
    if matching = ∅ then [] else t.filter (fun r => decide (r.id ∈ matching))

/-- Models `RxnDBProcessor.filter_by_products`. -/
def filter_by_products (t : List Reaction) (phases : List String) : List Reaction :=
  if phases = [] then t
  else
    let matching := get_ids_for_phases phases (product_lookup t)
    if matching = ∅ then [] else t.filter (fun r => decide (r.id ∈ matching))

/-- Models `RxnDBProcessor.filter_by_reactants_and_products`, including the
short-circuit returning an empty table when the forward-reactant or the
forward-product match set is empty (before the method branch). -/
def filter_by_reactants_and_products (t : List Reaction) (reactants products : List String)
    (method : String) : List Reaction :=
  if reactants = [] ∧ products = [] then t
  else if products = [] then filter_by_reactants t reactants
  else if reactants = [] then filter_by_products t products
  else
    let fR := get_ids_for_phases reactants (reactant_lookup t)
    let fP := get_ids_for_phases products (product_lookup t)
    let rR := get_ids_for_phases reactants (product_lookup t)
    let rP := get_ids_for_phases products (reactant_lookup t)
    if fR = ∅ then []
    else if fP = ∅ then []
    else
      let matching := if method = "and" then (fR ∩ fP) ∪ (rR ∩ rP) else (fR ∪ fP) ∪ (rR ∪ rP)
      if matching = ∅ then [] else t.filter (fun r => decide (r.id ∈ matching))

/-- The four match sets and their combination as computed inside
`_build_reaction_groups` (lines 120-135); any method other than `"and"`
takes the `"or"` branch, mirroring the `else:  # "or"` in the source. -/
def match_set (t : List Reaction) (method : String) (reactants products : List String) : Finset String :=
  if method = "and" then
    (get_ids_for_phases reactants (reactant_lookup t) ∩
        get_ids_for_phases products (product_lookup t)) ∪
      (get_ids_for_phases reactants (product_lookup t) ∩
        get_ids_for_phases products (reactant_lookup t))
  else
    (get_ids_for_phases reactants (reactant_lookup t) ∪
        get_ids_for_phases products (product_lookup t)) ∪
      (get_ids_for_phases reactants (product_lookup t) ∪
        get_ids_for_phases products (reactant_lookup t))

/-- The mutable state threaded through `_build_reaction_groups`:
the `_reaction_groups` dict (assignment overwrites, hence a function),
the `group_counter`, and the `processed_ids` set. -/
structure GroupState where
  groups : String → Option Nat
  counter : Nat
  processed : Finset String

/-- Models `self._original_df[self._original_df["id"] == rxn_id].iloc[0]`:
the first row with the given id. -/
def findRow (t : List Reaction) (rid : String) : Option Reaction :=
  t.find? (fun r => r.id == rid)

/-- First-occurrence deduplication, as performed by pandas `Series.unique()`. -/
def firstDedup {α : Type} [DecidableEq α] : List α → List α → List α
  | _, [] => []
  | seen, x :: xs => if x ∈ seen then firstDedup seen xs else x :: firstDedup (x :: seen) xs

/-- Models `self._original_df["id"].unique()`: the distinct ids in
first-occurrence order. -/
def uniqueIds (t : List Reaction) : List String :=
  firstDedup [] (t.map Reaction.id)

/-- The `matching_ids` set computed for one row by `_build_reaction_groups`
(lines 114-135): strip the row's reactant and product lists, then combine
the four match sets by the method. -/
def rowMatch (t : List Reaction) (method : String) (row : Reaction) : Finset String :=
  match_set t method (strip_coefficients row.reactants) (strip_coefficients row.products)

/-- One iteration of the main sweep of `_build_reaction_groups` (lines
102-143).  The `isinstance(…, list)` guard of the source never fires here
because cells are typed as lists. -/
def group_step (t : List Reaction) (method : String) (st : GroupState) (rid : String) : GroupState :=
  if rid ∈ st.processed then st
  else
    match findRow t rid with
    | none => st
    | some row =>
      if strip_coefficients row.reactants = [] ∨ strip_coefficients row.products = [] then st
      else if rowMatch t method row = ∅ then st
      else
        { groups := fun x => if x ∈ rowMatch t method row ∨ x = rid then some st.counter else st.groups x
          counter := st.counter + 1
          processed := (st.processed ∪ rowMatch t method row) ∪ {rid} }

/-- One iteration of the final sweep of `_build_reaction_groups` (lines
145-148): every id left unprocessed by the main sweep gets a fresh singleton
group (`processed_ids` is not updated there, matching the source). -/
def singleton_step (processed : Finset String) (acc : (String → Option Nat) × Nat)
    (rid : String) : (String → Option Nat) × Nat :=
  if rid ∈ processed then acc
  else (fun x => if x = rid then some acc.2 else acc.1 x, acc.2 + 1)

/-- The state after the main sweep of `_build_reaction_groups`. -/
def main_sweep (t : List Reaction) (method : String) : GroupState :=
  (uniqueIds t).foldl (group_step t method) { groups := fun _ => none, counter := 0, processed := ∅ }

/-- Models `RxnDBProcessor._build_reaction_groups(method)`: the final
`_reaction_groups` map together with the final `group_counter`. -/
def build_reaction_groups (t : List Reaction) (method : String) : (String → Option Nat) × Nat :=
  let st := main_sweep t method
  (uniqueIds t).foldl (singleton_step st.processed) (st.groups, st.counter)

/-- Modelled from the spec and the plotly library: the value of
`px.colors.qualitative.Set1`, the fixed deterministically ordered palette the
processor uses by default (`color_palette = "Set1"`); the palette itself
lives in the external plotly package, not in this repository. -/
def set1_palette : List String :=
  ["rgb(228,26,28)", "rgb(55,126,184)", "rgb(77,175,74)", "rgb(152,78,163)",
   "rgb(255,127,0)", "rgb(255,255,51)", "rgb(166,86,40)", "rgb(247,129,191)",
   "rgb(153,153,153)"]

/-- Insertion step of an insertion sort on naturals. -/
def insertSorted (n : Nat) : List Nat → List Nat
  | [] => [n]
  | x :: xs => if n ≤ x then n :: x :: xs else x :: insertSorted n xs

/-- Ascending sort of a list of naturals (models Python `sorted` on the
distinct group numbers). -/
def sortNat (l : List Nat) : List Nat := l.foldr insertSorted []

/-- The distinct values of the groups map over the table's ids, i.e.
`set(self._reaction_groups.values())`. -/
def group_values (t : List Reaction) (groups : String → Option Nat) : List Nat :=
  firstDedup [] ((uniqueIds t).filterMap groups)

/-- Models `RxnDBProcessor._build_color_map`: the i-th distinct group number
in ascending order gets `palette[i % len(palette)]`; absent keys give `none`
(`color_map.get(str(group), …)`). -/
def build_color_map (t : List Reaction) (groups : String → Option Nat) : Nat → Option String :=
  fun g =>
    let sorted := sortNat (group_values t groups)
    if g ∈ sorted then some (set1_palette.getD (sorted.indexOf g % set1_palette.length) "")
    else none

/-- The `_reaction_groups` map held by a freshly constructed processor:
`__post_init__` builds the groups with the default `method="and"`. -/
def processor_groups (t : List Reaction) : String → Option Nat :=
  (build_reaction_groups t "and").1

/-- The `_color_map` held by a freshly constructed processor. -/
def processor_color_map (t : List Reaction) : Nat → Option String :=
  build_color_map t (processor_groups t)

/-- Models `RxnDBProcessor.get_color_for_reaction`: black fallback when the
id has no group or the group has no color. -/
def get_color_for_reaction (t : List Reaction) (rid : String) : String :=
  match processor_groups t rid with
  | none => "#000000"
  | some g => (processor_color_map t g).getD "#000000"

/-- Modelled from the spec: the un-short-circuited `"and"` formulation the
spec asserts the code is equivalent to — compute
(forward-reactant ∩ forward-product) ∪ (reverse-reactant ∩ reverse-product)
and filter the table by that id set, with no empty-forward-set
short-circuit.  (The claim quantifies over non-empty phase lists, so the
empty-input degradations are not part of this formulation.) -/
def filter_rp_and_unshort (t : List Reaction) (reactants products : List String) : List Reaction :=
  let fR := get_ids_for_phases reactants (reactant_lookup t)
  let fP := get_ids_for_phases products (product_lookup t)
  let rR := get_ids_for_phases reactants (product_lookup t)
  let rP := get_ids_for_phases products (reactant_lookup t)
  t.filter (fun r => decide (r.id ∈ (fR ∩ fP) ∪ (rR ∩ rP)))

/-- Modelled from the spec: the `"or"` result as the claim states it — the
rows whose id lies in the union of the four match sets, with no
precondition on the forward match sets. -/
def filter_rp_or_union (t : List Reaction) (reactants products : List String) : List Reaction :=
  let fR := get_ids_for_phases reactants (reactant_lookup t)
  let fP := get_ids_for_phases products (product_lookup t)
  let rR := get_ids_for_phases reactants (product_lookup t)
  let rP := get_ids_for_phases products (reactant_lookup t)
  t.filter (fun r => decide (r.id ∈ (fR ∪ fP) ∪ (rR ∪ rP)))

/-- A raw reactants/products cell as it arrives in the source table, before
`_precompute_phase_info` normalizes it: either a list (of tokens) or some
non-list value (`NaN`, a string, …). -/
inductive RawCell where
  | strs : List String → RawCell
  | nonlist : RawCell
deriving DecidableEq, Repr

/-- Whether a raw cell is already a list (`isinstance(x, list)`). -/
def RawCell.isListB : RawCell → Bool
  | RawCell.strs _ => true
  | RawCell.nonlist => false

/-- A raw row of the source table, as handed to the processor constructor. -/
structure RawReaction where
  id : String
  reactants : RawCell
  products : RawCell
deriving DecidableEq, Repr

/-- Models `x if isinstance(x, list) else []` from `_precompute_phase_info`. -/
def normalizeCell : RawCell → RawCell
  | RawCell.strs l => RawCell.strs l
  | RawCell.nonlist => RawCell.strs []

/-- The effect of `_precompute_phase_info` on one row of `self.df`. -/
def normalizeRow (r : RawReaction) : RawReaction :=
  { r with reactants := normalizeCell r.reactants, products := normalizeCell r.products }

/-- Models the in-place column assignments of `_precompute_phase_info`
(lines 64-69): the state of the source table (`self.df`, which is the same
object as `self._original_df`) after the processor constructor has run. -/
def normalizeTable (t : List RawReaction) : List RawReaction :=
  t.map normalizeRow

/-- The required columns checked by `RxnDBProcessor.__post_init__`. -/
def requiredCols : List String :=
  ["id", "reactants", "products", "type", "plot_type", "rxn", "ref"]

/-- Modelled from the spec: the six required fields the claim lists,
rendered with the code's column names (`rxn` for `reaction`, `ref` for
`reference`). -/
def spec_required_fields : List String :=
  ["id", "reactants", "products", "type", "rxn", "ref"]

/-- The distinct failure modes of `__post_init__`, standing for the spec's
error taxonomy: `validationError` is the empty-table `ValueError`,
`schemaError` the missing-columns `ValueError` (carrying the missing list). -/
inductive InitError where
  | validationError : InitError
  | schemaError : List String → InitError
deriving DecidableEq, Repr

deriving instance DecidableEq for Except

/-- Models the validation in `RxnDBProcessor.__post_init__` (lines 28-47):
the emptiness check runs first (with `df.empty` true when the table has no
rows or no columns), then the missing-columns check; `Except.error` models
raising, so no partial construction survives a failure.  The
`isinstance(df, DataFrame)` TypeError is outside the model (inputs are
tables by type). -/
def post_init (cols : List String) (nrows : Nat) (allowEmpty : Bool) : Except InitError Unit :=
  if ¬allowEmpty ∧ (nrows = 0 ∨ cols = []) then Except.error InitError.validationError
  else if requiredCols.filter (fun c => !cols.contains c) ≠ [] then
    Except.error (InitError.schemaError (requiredCols.filter (fun c => !cols.contains c)))
  else Except.ok ()

/-- The two-reaction table of the spec's scenario: `R1: ky => and` and
`R2: and => sil`. -/
def tScenario : List Reaction :=
  [{ id := "R1", reactants := ["ky"], products := ["and"] },
   { id := "R2", reactants := ["and"], products := ["sil"] }]

/-- A pair of swapped (reversed) reactions: `A: x => y` and `B: y => x`. -/
def tSwap : List Reaction :=
  [{ id := "A", reactants := ["x"], products := ["y"] },
   { id := "B", reactants := ["y"], products := ["x"] }]

/-- A one-reaction table `A: a => b`. -/
def tOne : List Reaction :=
  [{ id := "A", reactants := ["a"], products := ["b"] }]

/-- Overlap of two token lists: some phase occurs in both. -/
def overlap (l1 l2 : List String) : Prop := ∃ p, p ∈ l1 ∧ p ∈ l2

/-- The stripped reactant list of a row. -/
def sReact (r : Reaction) : List String := strip_coefficients r.reactants

/-- The stripped product list of a row. -/
def sProd (r : Reaction) : List String := strip_coefficients r.products

/-- The row-level similarity relation realized by `match_set` on tables with
unique ids: under `"and"`, share a reactant and a product (forward), or
cross-wise (reverse); any other method takes the `"or"` reading, the
disjunction of the four overlaps. -/
def matchRel (method : String) (a b : Reaction) : Prop :=
  if method = "and" then
    (overlap (sReact a) (sReact b) ∧ overlap (sProd a) (sProd b)) ∨
      (overlap (sProd a) (sReact b) ∧ overlap (sReact a) (sProd b))
  else
    (overlap (sReact a) (sReact b) ∨ overlap (sProd a) (sProd b)) ∨
      (overlap (sProd a) (sReact b) ∨ overlap (sReact a) (sProd b))

/-- A row with no stripped reactant or product phase in common with any
row of a different id — the claim's "no reactant or product overlap with
any other reaction". -/
def Isolated (t : List Reaction) (r0 : Reaction) : Prop :=
  ∀ r ∈ t, r.id ≠ r0.id →
    ¬ overlap (sReact r0 ++ sProd r0) (sReact r ++ sProd r)

/-! Membership characterizations of the lookup structures. -/

lemma sReact_def (r : Reaction) : sReact r = strip_coefficients r.reactants := rfl

lemma sProd_def (r : Reaction) : sProd r = strip_coefficients r.products := rfl

lemma mem_strip_coefficients {p : String} {l : List String} :
    p ∈ strip_coefficients l ↔ (∃ tok ∈ l, stripPhase tok = p) ∧ p ≠ "" := by
  simp [strip_coefficients, List.mem_filter]

lemma cleanTok_eq_some {tok p : String} :
    cleanTok tok = some p ↔ stripPhase tok = p ∧ p ≠ "" := by
  unfold cleanTok
  by_cases h : stripPhase tok = "" <;>
    simp [strip_coefficients, h] <;> aesop

lemma mem_reactant_lookup {t : List Reaction} {ph x : String} :
    x ∈ reactant_lookup t ph ↔ ∃ r ∈ t, r.id = x ∧ ph ∈ strip_coefficients r.reactants := by
  simp only [reactant_lookup, List.mem_toFinset, List.mem_map, List.mem_filter,
    List.any_eq_true, beq_iff_eq, cleanTok_eq_some, mem_strip_coefficients]
  aesop

lemma mem_product_lookup {t : List Reaction} {ph x : String} :
    x ∈ product_lookup t ph ↔ ∃ r ∈ t, r.id = x ∧ ph ∈ strip_coefficients r.products := by
  simp only [product_lookup, List.mem_toFinset, List.mem_map, List.mem_filter,
    List.any_eq_true, beq_iff_eq, cleanTok_eq_some, mem_strip_coefficients]
  aesop

lemma mem_foldl_union {x : String} {lookup : String → Finset String} :
    ∀ (l : List String) (acc : Finset String),
      (x ∈ l.foldl (fun acc p => acc ∪ lookup p) acc ↔ x ∈ acc ∨ ∃ p ∈ l, x ∈ lookup p) := by
  intro l
  induction l with
  | nil => simp
  | cons p ps ih =>
    intro acc
    rw [List.foldl_cons, ih (acc ∪ lookup p)]
    simp [Finset.mem_union, or_assoc]

lemma mem_get_ids_for_phases {x : String} {phases : List String} {lookup : String → Finset String} :
    x ∈ get_ids_for_phases phases lookup ↔ ∃ p ∈ phases, x ∈ lookup p := by
  unfold get_ids_for_phases
  by_cases h : phases = []
  · simp [h]
  · rw [if_neg h, mem_foldl_union]
    simp

lemma id_unique {t : List Reaction} (hnd : (t.map Reaction.id).Nodup)
    {a b : Reaction} (ha : a ∈ t) (hb : b ∈ t) (h : a.id = b.id) : a = b :=
  List.inj_on_of_nodup_map hnd ha hb h

lemma findRow_mem {t : List Reaction} {rid : String} {r : Reaction}
    (h : findRow t rid = some r) : r ∈ t ∧ r.id = rid := by
  unfold findRow at h
  refine ⟨List.mem_of_find?_eq_some h, ?_⟩
  have := List.find?_some h
  simpa [beq_iff_eq] using this

lemma findRow_self {t : List Reaction} (hnd : (t.map Reaction.id).Nodup)
    {r : Reaction} (hr : r ∈ t) : findRow t r.id = some r := by
  have hs : (t.find? (fun x => x.id == r.id)).isSome := by
    rw [List.find?_isSome]; exact ⟨r, hr, by simp⟩
  rcases Option.isSome_iff_exists.mp hs with ⟨b, hb⟩
  have hb' : findRow t r.id = some b := hb
  rcases findRow_mem hb' with ⟨hbt, hbid⟩
  rw [hb', id_unique hnd hbt hr hbid]

lemma mem_firstDedup {α : Type} [DecidableEq α] :
    ∀ (seen l : List α) (x : α), (x ∈ firstDedup seen l ↔ x ∈ l ∧ x ∉ seen) := by
  intro seen l
  induction l generalizing seen with
  | nil => simp [firstDedup]
  | cons a as ih =>
    intro x
    by_cases h : a ∈ seen
    · rw [show firstDedup seen (a :: as) = firstDedup seen as from by simp [firstDedup, h]]
      rw [ih seen x]
      constructor
      · rintro ⟨h1, h2⟩; exact ⟨List.mem_cons_of_mem _ h1, h2⟩
      · rintro ⟨h1, h2⟩
        rcases List.mem_cons.mp h1 with rfl | h1
        · exact absurd h h2
        · exact ⟨h1, h2⟩
    · rw [show firstDedup seen (a :: as) = a :: firstDedup (a :: seen) as from by
        simp [firstDedup, h]]
      rw [List.mem_cons, ih (a :: seen) x]
      constructor
      · rintro (rfl | ⟨h1, h2⟩)
        · exact ⟨List.mem_cons_self _ _, h⟩
        · exact ⟨List.mem_cons_of_mem _ h1, fun hx => h2 (List.mem_cons_of_mem _ hx)⟩
      · rintro ⟨h1, h2⟩
        rcases List.mem_cons.mp h1 with rfl | h1
        · exact Or.inl rfl
        · by_cases hxa : x = a
          · exact Or.inl hxa
          · exact Or.inr ⟨h1, fun hx => by
              rcases List.mem_cons.mp hx with rfl | hx
              · exact hxa rfl
              · exact h2 hx⟩

lemma nodup_firstDedup {α : Type} [DecidableEq α] :
    ∀ (seen l : List α), (firstDedup seen l).Nodup := by
  intro seen l
  induction l generalizing seen with
  | nil => simp [firstDedup]
  | cons a as ih =>
    by_cases h : a ∈ seen
    · rw [show firstDedup seen (a :: as) = firstDedup seen as from by simp [firstDedup, h]]
      exact ih seen
    · rw [show firstDedup seen (a :: as) = a :: firstDedup (a :: seen) as from by
        simp [firstDedup, h]]
      refine List.nodup_cons.mpr ⟨?_, ih (a :: seen)⟩
      intro hmem
      exact ((mem_firstDedup (a :: seen) as a).mp hmem).2 (List.mem_cons_self _ _)

lemma mem_uniqueIds {t : List Reaction} {x : String} :
    x ∈ uniqueIds t ↔ ∃ r ∈ t, r.id = x := by
  unfold uniqueIds
  rw [mem_firstDedup]
  simp

lemma nodup_uniqueIds (t : List Reaction) : (uniqueIds t).Nodup :=
  nodup_firstDedup [] _

/-! Characterization of the similarity match sets as a row-level relation. -/

lemma overlap_comm {l1 l2 : List String} : overlap l1 l2 ↔ overlap l2 l1 := by
  unfold overlap; aesop

lemma aid_mem_get_ids_reactant {t : List Reaction} (hnd : (t.map Reaction.id).Nodup)
    {a : Reaction} (ha : a ∈ t) {phases : List String} :
    a.id ∈ get_ids_for_phases phases (reactant_lookup t) ↔ overlap (sReact a) phases := by
  rw [mem_get_ids_for_phases]
  constructor
  · rintro ⟨p, hp, hmem⟩
    rw [mem_reactant_lookup] at hmem
    rcases hmem with ⟨r, hr, hid, hpr⟩
    have hra : r = a := id_unique hnd hr ha hid
    subst hra
    exact ⟨p, hpr, hp⟩
  · rintro ⟨p, hpa, hp⟩
    exact ⟨p, hp, mem_reactant_lookup.mpr ⟨a, ha, rfl, hpa⟩⟩

lemma aid_mem_get_ids_product {t : List Reaction} (hnd : (t.map Reaction.id).Nodup)
    {a : Reaction} (ha : a ∈ t) {phases : List String} :
    a.id ∈ get_ids_for_phases phases (product_lookup t) ↔ overlap (sProd a) phases := by
  rw [mem_get_ids_for_phases]
  constructor
  · rintro ⟨p, hp, hmem⟩
    rw [mem_product_lookup] at hmem
    rcases hmem with ⟨r, hr, hid, hpr⟩
    have hra : r = a := id_unique hnd hr ha hid
    subst hra
    exact ⟨p, hpr, hp⟩
  · rintro ⟨p, hpa, hp⟩
    exact ⟨p, hp, mem_product_lookup.mpr ⟨a, ha, rfl, hpa⟩⟩

lemma mem_match_set_iff {t : List Reaction} (hnd : (t.map Reaction.id).Nodup)
    {a b : Reaction} (ha : a ∈ t) (hb : b ∈ t) {m : String} :
    a.id ∈ match_set t m (sReact b) (sProd b) ↔ matchRel m a b := by
  unfold match_set matchRel
  by_cases hm : m = "and" <;>
    simp only [hm, if_true, if_false, reduceIte, Finset.mem_union, Finset.mem_inter,
      aid_mem_get_ids_reactant hnd ha, aid_mem_get_ids_product hnd ha]

lemma mem_match_set_exists_row {t : List Reaction} {m : String} {ph1 ph2 : List String}
    {x : String} (h : x ∈ match_set t m ph1 ph2) : ∃ r ∈ t, r.id = x := by
  unfold match_set at h
  by_cases hm : m = "and" <;>
    simp only [hm, if_true, if_false, reduceIte, Finset.mem_union, Finset.mem_inter,
      mem_get_ids_for_phases] at h
  · rcases h with ⟨⟨p, _, hmem⟩, _⟩ | ⟨⟨p, _, hmem⟩, _⟩
    · rcases mem_reactant_lookup.mp hmem with ⟨r, hr, hid, _⟩
      exact ⟨r, hr, hid⟩
    · rcases mem_product_lookup.mp hmem with ⟨r, hr, hid, _⟩
      exact ⟨r, hr, hid⟩
  · rcases h with (⟨p, _, hmem⟩ | ⟨p, _, hmem⟩) | (⟨p, _, hmem⟩ | ⟨p, _, hmem⟩)
    · rcases mem_reactant_lookup.mp hmem with ⟨r, hr, hid, _⟩
      exact ⟨r, hr, hid⟩
    · rcases mem_product_lookup.mp hmem with ⟨r, hr, hid, _⟩
      exact ⟨r, hr, hid⟩
    · rcases mem_product_lookup.mp hmem with ⟨r, hr, hid, _⟩
      exact ⟨r, hr, hid⟩
    · rcases mem_reactant_lookup.mp hmem with ⟨r, hr, hid, _⟩
      exact ⟨r, hr, hid⟩

lemma matchRel_symm {m : String} {a b : Reaction} : matchRel m a b ↔ matchRel m b a := by
  unfold matchRel
  by_cases hm : m = "and" <;> simp only [hm, if_true, if_false, reduceIte]
  · constructor
    · rintro (⟨h1, h2⟩ | ⟨h1, h2⟩)
      · exact Or.inl ⟨overlap_comm.mp h1, overlap_comm.mp h2⟩
      · exact Or.inr ⟨overlap_comm.mp h2, overlap_comm.mp h1⟩
    · rintro (⟨h1, h2⟩ | ⟨h1, h2⟩)
      · exact Or.inl ⟨overlap_comm.mp h1, overlap_comm.mp h2⟩
      · exact Or.inr ⟨overlap_comm.mp h2, overlap_comm.mp h1⟩
  · constructor
    · rintro ((h | h) | (h | h))
      · exact Or.inl (Or.inl (overlap_comm.mp h))
      · exact Or.inl (Or.inr (overlap_comm.mp h))
      · exact Or.inr (Or.inr (overlap_comm.mp h))
      · exact Or.inr (Or.inl (overlap_comm.mp h))
    · rintro ((h | h) | (h | h))
      · exact Or.inl (Or.inl (overlap_comm.mp h))
      · exact Or.inl (Or.inr (overlap_comm.mp h))
      · exact Or.inr (Or.inr (overlap_comm.mp h))
      · exact Or.inr (Or.inl (overlap_comm.mp h))

lemma overlap_self_of_ne_nil {l : List String} (h : l ≠ []) : overlap l l := by
  rcases l with _ | ⟨p, ps⟩
  · exact absurd rfl h
  · exact ⟨p, List.mem_cons_self _ _, List.mem_cons_self _ _⟩

lemma matchRel_self {m : String} {a : Reaction}
    (hr : sReact a ≠ []) (hp : sProd a ≠ []) : matchRel m a a := by
  unfold matchRel
  by_cases hm : m = "and" <;> simp only [hm, if_true, if_false, reduceIte]
  · exact Or.inl ⟨overlap_self_of_ne_nil hr, overlap_self_of_ne_nil hp⟩
  · exact Or.inl (Or.inl (overlap_self_of_ne_nil hr))

lemma rowMatch_eq (t : List Reaction) (m : String) (row : Reaction) :
    rowMatch t m row = match_set t m (sReact row) (sProd row) := rfl

lemma matchRel_overlap {m : String} {a b : Reaction} (h : matchRel m a b) :
    overlap (sReact a ++ sProd a) (sReact b ++ sProd b) := by
  unfold matchRel at h
  have mk : ∀ {l1 l2 : List String},
      overlap l1 l2 → l1 = sReact a ∨ l1 = sProd a → l2 = sReact b ∨ l2 = sProd b →
      overlap (sReact a ++ sProd a) (sReact b ++ sProd b) := by
    rintro l1 l2 ⟨p, hp1, hp2⟩ (rfl | rfl) (rfl | rfl) <;>
      exact ⟨p, by simp [hp1], by simp [hp2]⟩
  by_cases hm : m = "and" <;> simp only [hm, if_true, if_false, reduceIte] at h
  · rcases h with ⟨h1, _⟩ | ⟨h1, _⟩
    · exact mk h1 (Or.inl rfl) (Or.inl rfl)
    · exact mk h1 (Or.inr rfl) (Or.inl rfl)
  · rcases h with (h1 | h1) | (h1 | h1)
    · exact mk h1 (Or.inl rfl) (Or.inl rfl)
    · exact mk h1 (Or.inr rfl) (Or.inr rfl)
    · exact mk h1 (Or.inr rfl) (Or.inl rfl)
    · exact mk h1 (Or.inl rfl) (Or.inr rfl)

/-! The main-sweep loop: case analysis and invariants. -/

lemma group_step_cases (t : List Reaction) (m : String) (st : GroupState) (rid : String) :
    (group_step t m st rid = st ∧
      (rid ∈ st.processed ∨ findRow t rid = none ∨
        ∃ row, findRow t rid = some row ∧
          (strip_coefficients row.reactants = [] ∨ strip_coefficients row.products = [] ∨
            rowMatch t m row = ∅))) ∨
    ∃ row, findRow t rid = some row ∧ rid ∉ st.processed ∧
      strip_coefficients row.reactants ≠ [] ∧ strip_coefficients row.products ≠ [] ∧
      rowMatch t m row ≠ ∅ ∧
      group_step t m st rid =
        { groups := fun x => if x ∈ rowMatch t m row ∨ x = rid then some st.counter else st.groups x
          counter := st.counter + 1
          processed := (st.processed ∪ rowMatch t m row) ∪ {rid} } := by
  unfold group_step
  by_cases h1 : rid ∈ st.processed
  · exact Or.inl ⟨by rw [if_pos h1], Or.inl h1⟩
  · rw [if_neg h1]
    split
    · rename_i hrow
      exact Or.inl ⟨rfl, Or.inr (Or.inl hrow)⟩
    · rename_i row hrow
      by_cases h2 : strip_coefficients row.reactants = [] ∨ strip_coefficients row.products = []
      · rw [if_pos h2]
        exact Or.inl ⟨rfl, Or.inr (Or.inr ⟨row, hrow, by tauto⟩)⟩
      · rw [if_neg h2]
        push_neg at h2
        by_cases h3 : rowMatch t m row = ∅
        · rw [if_pos h3]
          exact Or.inl ⟨rfl, Or.inr (Or.inr ⟨row, hrow, by tauto⟩)⟩
        · rw [if_neg h3]
          exact Or.inr ⟨row, hrow, h1, h2.1, h2.2, h3, rfl⟩

lemma group_step_processed_mono (t : List Reaction) (m : String) (st : GroupState) (rid : String) :
    st.processed ⊆ (group_step t m st rid).processed := by
  rcases group_step_cases t m st rid with ⟨heq, _⟩ | ⟨row, _, _, _, _, _, heq⟩ <;> rw [heq] <;>
    intro x hx <;>
    simp only [Finset.mem_union, Finset.mem_singleton] <;>
    tauto

lemma group_step_self_processed {t : List Reaction} {m : String} (st : GroupState) {rid : String}
    {row : Reaction} (hrow : findRow t rid = some row)
    (h1 : strip_coefficients row.reactants ≠ [])
    (h2 : strip_coefficients row.products ≠ [])
    (h3 : rid ∈ rowMatch t m row) :
    rid ∈ (group_step t m st rid).processed := by
  rcases group_step_cases t m st rid with ⟨heq, hreason⟩ | ⟨row2, hrow2, _, _, _, _, heq⟩
  · rw [heq]
    rcases hreason with hp | hnone | ⟨row3, hrow3, hbad⟩
    · exact hp
    · rw [hrow] at hnone; exact absurd hnone (by simp)
    · rw [hrow] at hrow3
      have heqr : row3 = row := by injection hrow3.symm
      subst heqr
      rcases hbad with hbad | hbad | hbad
      · exact absurd hbad h1
      · exact absurd hbad h2
      · rw [hbad] at h3; exact absurd h3 (by simp)
  · rw [heq]
    show rid ∈ (st.processed ∪ rowMatch t m row2) ∪ {rid}
    simp only [Finset.mem_union, Finset.mem_singleton]
    tauto

lemma foldl_preserve {σ α : Type} {f : σ → α → σ} {I : σ → Prop}
    (hf : ∀ s a, I s → I (f s a)) :
    ∀ (l : List α) (s : σ), I s → I (l.foldl f s) := by
  intro l
  induction l with
  | nil => intro s h; exact h
  | cons a as ih =>
    intro s h
    rw [List.foldl_cons]
    exact ih _ (hf s a h)

lemma fold_processed_mono (t : List Reaction) (m : String) :
    ∀ (l : List String) (st : GroupState),
      st.processed ⊆ (l.foldl (group_step t m) st).processed := by
  intro l
  induction l with
  | nil => intro st; exact Finset.Subset.refl _
  | cons a as ih =>
    intro st
    rw [List.foldl_cons]
    exact (group_step_processed_mono t m st a).trans (ih _)

/-- The inductive invariant of the main sweep: group assignment and the
processed set coincide; assigned group numbers are below the counter; every
used group number has an anchor row that no future iteration can reassign;
processed ids are ids of the table. -/
def MainInv (t : List Reaction) (m : String) (st : GroupState) : Prop :=
  (∀ x, (st.groups x).isSome ↔ x ∈ st.processed) ∧
  (∀ x g, st.groups x = some g → g < st.counter) ∧
  (∀ g, g < st.counter →
    ∃ a ∈ t, st.groups a.id = some g ∧ a.id ∈ st.processed ∧
      ∀ b ∈ t, b.id ∉ st.processed → ¬ matchRel m a b) ∧
  (∀ x ∈ st.processed, ∃ r ∈ t, r.id = x)

lemma mainInv_step {t : List Reaction} {m : String} (hnd : (t.map Reaction.id).Nodup)
    {st : GroupState} (h : MainInv t m st) (rid : String) :
    MainInv t m (group_step t m st rid) := by
  obtain ⟨ha, hb, hc, hd⟩ := h
  rcases group_step_cases t m st rid with ⟨heq, _⟩ | ⟨row, hrow, hp, hr1, hr2, hm3, heq⟩
  · rw [heq]; exact ⟨ha, hb, hc, hd⟩
  · obtain ⟨hrowt, hrowid⟩ := findRow_mem hrow
    rw [heq]
    refine ⟨?_, ?_, ?_, ?_⟩
    · intro x
      show (if x ∈ rowMatch t m row ∨ x = rid then some st.counter else st.groups x).isSome ↔
        x ∈ (st.processed ∪ rowMatch t m row) ∪ {rid}
      by_cases hcond : x ∈ rowMatch t m row ∨ x = rid
      · rw [if_pos hcond]
        refine iff_of_true rfl ?_
        simp only [Finset.mem_union, Finset.mem_singleton]
        tauto
      · rw [if_neg hcond]
        push_neg at hcond
        simp only [Finset.mem_union, Finset.mem_singleton]
        rw [ha x]
        constructor
        · intro hx
          exact Or.inl (Or.inl hx)
        · rintro ((hx | hx) | hx)
          · exact hx
          · exact absurd hx hcond.1
          · exact absurd hx hcond.2
    · intro x g
      show (if x ∈ rowMatch t m row ∨ x = rid then some st.counter else st.groups x) = some g →
        g < st.counter + 1
      intro hxg
      by_cases hcond : x ∈ rowMatch t m row ∨ x = rid
      · rw [if_pos hcond] at hxg
        injection hxg with hxg
        omega
      · rw [if_neg hcond] at hxg
        exact Nat.lt_succ_of_lt (hb x g hxg)
    · intro g hg
      have hg1 : g < st.counter + 1 := hg
      show ∃ a ∈ t,
        (if a.id ∈ rowMatch t m row ∨ a.id = rid then some st.counter else st.groups a.id) = some g ∧
        a.id ∈ (st.processed ∪ rowMatch t m row) ∪ {rid} ∧
        ∀ b ∈ t, b.id ∉ (st.processed ∪ rowMatch t m row) ∪ {rid} → ¬ matchRel m a b
      have hg2 : g < st.counter ∨ g = st.counter := by omega
      rcases hg2 with hg2 | rfl
      · obtain ⟨a, hat, hag, hap, hcond⟩ := hc g hg2
        have hane : a.id ≠ rid := fun hx => hp (hx ▸ hap)
        have hanm : a.id ∉ rowMatch t m row := by
          intro hmem
          rw [rowMatch_eq] at hmem
          exact hcond row hrowt (hrowid ▸ hp) ((mem_match_set_iff hnd hat hrowt).mp hmem)
        refine ⟨a, hat, ?_, ?_, ?_⟩
        · rw [if_neg (by tauto)]
          exact hag
        · simp only [Finset.mem_union, Finset.mem_singleton]
          exact Or.inl (Or.inl hap)
        · intro b hbt hbp hrel
          apply hbp
          simp only [Finset.mem_union, Finset.mem_singleton]
          by_cases hbP : b.id ∈ st.processed
          · exact Or.inl (Or.inl hbP)
          · exact absurd hrel (hcond b hbt hbP)
      · refine ⟨row, hrowt, ?_, ?_, ?_⟩
        · rw [if_pos (Or.inr hrowid)]
        · simp only [Finset.mem_union, Finset.mem_singleton]
          exact Or.inr hrowid
        · intro b hbt hbp hrel
          apply hbp
          simp only [Finset.mem_union, Finset.mem_singleton]
          refine Or.inl (Or.inr ?_)
          rw [rowMatch_eq]
          exact (mem_match_set_iff hnd hbt hrowt).mpr (matchRel_symm.mp hrel)
    · intro x hx
      have hx2 : x ∈ (st.processed ∪ rowMatch t m row) ∪ {rid} := hx
      simp only [Finset.mem_union, Finset.mem_singleton] at hx2
      rcases hx2 with (hx2 | hx2) | rfl
      · exact hd x hx2
      · exact mem_match_set_exists_row (rowMatch_eq t m row ▸ hx2)
      · exact ⟨row, hrowt, hrowid⟩

lemma mainInv_init (t : List Reaction) (m : String) :
    MainInv t m { groups := fun _ => none, counter := 0, processed := ∅ } := by
  refine ⟨by simp, by simp, by simp, by simp⟩

lemma mainInv_main_sweep {t : List Reaction} {m : String}
    (hnd : (t.map Reaction.id).Nodup) : MainInv t m (main_sweep t m) := by
  unfold main_sweep
  exact @foldl_preserve GroupState String (group_step t m) (MainInv t m)
    (fun s a hs => mainInv_step hnd hs a) (uniqueIds t) _ (mainInv_init t m)

/-! The final sweep: singleton groups for ids left unprocessed. -/

lemma singleton_step_preserve {P : Finset String} {acc : (String → Option Nat) × Nat}
    {rid x : String} (hx : x ∈ P) :
    (singleton_step P acc rid).1 x = acc.1 x := by
  unfold singleton_step
  by_cases h : rid ∈ P
  · rw [if_pos h]
  · rw [if_neg h]
    show (if x = rid then some acc.2 else acc.1 x) = acc.1 x
    rw [if_neg (by intro hxr; exact h (hxr ▸ hx))]

lemma fin_fold_preserve {P : Finset String} :
    ∀ (l : List String) (acc : (String → Option Nat) × Nat) (x : String), x ∈ P →
      (l.foldl (singleton_step P) acc).1 x = acc.1 x := by
  intro l
  induction l with
  | nil => intro acc x _; rfl
  | cons a as ih =>
    intro acc x hx
    rw [List.foldl_cons, ih _ x hx, singleton_step_preserve hx]

lemma fin_fold (t : List Reaction) (P : Finset String) :
    ∀ (l : List String) (acc : (String → Option Nat) × Nat),
      l.Nodup →
      (∀ x, x ∈ P → (acc.1 x).isSome) →
      (∀ x ∈ l, x ∉ P → acc.1 x = none) →
      (∀ x g, acc.1 x = some g → g < acc.2) →
      (∀ g, g < acc.2 → ∃ r ∈ t, acc.1 r.id = some g) →
      (∀ x ∈ l, ∃ r ∈ t, r.id = x) →
      (∀ x, (acc.1 x).isSome → ((l.foldl (singleton_step P) acc).1 x).isSome) ∧
      (∀ x ∈ l, ((l.foldl (singleton_step P) acc).1 x).isSome) ∧
      (∀ x g, (l.foldl (singleton_step P) acc).1 x = some g →
        g < (l.foldl (singleton_step P) acc).2) ∧
      (∀ g, g < (l.foldl (singleton_step P) acc).2 →
        ∃ r ∈ t, (l.foldl (singleton_step P) acc).1 r.id = some g) := by
  intro l
  induction l with
  | nil =>
    intro acc _ _ _ hbound hdense _
    exact ⟨fun x hx => hx, by simp, hbound, hdense⟩
  | cons x0 ls ih =>
    intro acc hnd hP hnone hbound hdense hids
    rw [List.foldl_cons]
    have hx0l : x0 ∈ x0 :: ls := List.mem_cons_self _ _
    by_cases h0 : x0 ∈ P
    · have hstep : singleton_step P acc x0 = acc := by
        unfold singleton_step; rw [if_pos h0]
      rw [hstep]
      obtain ⟨A, B, C, D⟩ := ih acc (List.Nodup.of_cons hnd) hP
        (fun x hx hxp => hnone x (List.mem_cons_of_mem _ hx) hxp) hbound hdense
        (fun x hx => hids x (List.mem_cons_of_mem _ hx))
      refine ⟨A, ?_, C, D⟩
      intro x hx
      rcases List.mem_cons.mp hx with rfl | hx
      · exact A _ (hP _ h0)
      · exact B _ hx
    · have hstep : singleton_step P acc x0 =
          (fun x => if x = x0 then some acc.2 else acc.1 x, acc.2 + 1) := by
        unfold singleton_step; rw [if_neg h0]
      rw [hstep]
      have hx0none : acc.1 x0 = none := hnone x0 hx0l h0
      have hnd2 := List.Nodup.of_cons hnd
      have hx0nls : x0 ∉ ls := (List.nodup_cons.mp hnd).1
      have pre1 : ∀ x, x ∈ P → (if x = x0 then some acc.2 else acc.1 x).isSome := by
        intro x hx
        by_cases hxx : x = x0
        · rw [if_pos hxx]; rfl
        · rw [if_neg hxx]; exact hP x hx
      have pre2 : ∀ x ∈ ls, x ∉ P → (if x = x0 then some acc.2 else acc.1 x) = none := by
        intro x hx hxp
        rw [if_neg (by intro hxx; exact hx0nls (hxx ▸ hx))]
        exact hnone x (List.mem_cons_of_mem _ hx) hxp
      have pre3 : ∀ x g, (if x = x0 then some acc.2 else acc.1 x) = some g → g < acc.2 + 1 := by
        intro x g hxg
        by_cases hxx : x = x0
        · rw [if_pos hxx] at hxg
          injection hxg with hxg
          omega
        · rw [if_neg hxx] at hxg
          exact Nat.lt_succ_of_lt (hbound x g hxg)
      have pre4 : ∀ g, g < acc.2 + 1 →
          ∃ r ∈ t, (if r.id = x0 then some acc.2 else acc.1 r.id) = some g := by
        intro g hg
        have hcase : g < acc.2 ∨ g = acc.2 := by omega
        rcases hcase with hlt | rfl
        · obtain ⟨r, hrt, hrg⟩ := hdense g hlt
          have hne : r.id ≠ x0 := by
            intro hxx
            rw [hxx, hx0none] at hrg
            exact Option.noConfusion hrg
          exact ⟨r, hrt, by rw [if_neg hne]; exact hrg⟩
        · obtain ⟨r, hrt, hrid⟩ := hids x0 hx0l
          exact ⟨r, hrt, by rw [if_pos hrid]⟩
      have pre5 : ∀ x ∈ ls, ∃ r ∈ t, r.id = x :=
        fun x hx => hids x (List.mem_cons_of_mem _ hx)
      obtain ⟨A, B, C, D⟩ := ih (fun x => if x = x0 then some acc.2 else acc.1 x, acc.2 + 1)
        hnd2 pre1 pre2 pre3 pre4 pre5
      refine ⟨?_, ?_, C, D⟩
      · intro x hx
        apply A
        show (if x = x0 then some acc.2 else acc.1 x).isSome
        by_cases hxx : x = x0
        · rw [if_pos hxx]; rfl
        · rw [if_neg hxx]; exact hx
      · intro x hx
        rcases List.mem_cons.mp hx with rfl | hx
        · apply A
          show (if x = x then some acc.2 else acc.1 x).isSome
          rw [if_pos rfl]; rfl
        · exact B x hx

/-! Isolated reactions and singleton groups. -/

lemma build_reaction_groups_eq (t : List Reaction) (m : String) :
    build_reaction_groups t m =
      (uniqueIds t).foldl (singleton_step (main_sweep t m).processed)
        ((main_sweep t m).groups, (main_sweep t m).counter) := rfl

lemma rowMatch_isolated_subset {t : List Reaction} {m : String}
    (hnd : (t.map Reaction.id).Nodup) {r0 : Reaction} (hr0 : r0 ∈ t)
    (hiso : Isolated t r0) {x : String} (hx : x ∈ rowMatch t m r0) : x = r0.id := by
  obtain ⟨rx, hrxt, hrxid⟩ := mem_match_set_exists_row (rowMatch_eq t m r0 ▸ hx)
  by_contra hne
  have hx2 : rx.id ∈ match_set t m (sReact r0) (sProd r0) := by
    rw [hrxid]; exact rowMatch_eq t m r0 ▸ hx
  have hrel : matchRel m rx r0 := (mem_match_set_iff hnd hrxt hr0).mp hx2
  have hov := matchRel_overlap hrel
  exact hiso rx hrxt (fun hh => hne (hrxid.symm.trans hh)) (overlap_comm.mp hov)

lemma notMem_rowMatch_isolated {t : List Reaction} {m : String}
    (hnd : (t.map Reaction.id).Nodup) {r0 row : Reaction} (hr0 : r0 ∈ t) (hrowt : row ∈ t)
    (hiso : Isolated t r0) (hne : row.id ≠ r0.id) : r0.id ∉ rowMatch t m row := by
  intro hmem
  have hrel : matchRel m r0 row :=
    (mem_match_set_iff hnd hr0 hrowt).mp (rowMatch_eq t m row ▸ hmem)
  exact hiso row hrowt hne (matchRel_overlap hrel)

/-- The value-uniqueness invariant for an isolated reaction: whenever it has
a group number, no other id has the same number. -/
def SingInv (r0 : Reaction) (st : GroupState) : Prop :=
  ∀ g, st.groups r0.id = some g → ∀ x, x ≠ r0.id → st.groups x ≠ some g

lemma singInv_step {t : List Reaction} {m : String} (hnd : (t.map Reaction.id).Nodup)
    {r0 : Reaction} (hr0 : r0 ∈ t) (hiso : Isolated t r0)
    {st : GroupState} (hm : MainInv t m st) (hs : SingInv r0 st) (rid : String) :
    SingInv r0 (group_step t m st rid) := by
  obtain ⟨ha, hb, hc, hd⟩ := hm
  rcases group_step_cases t m st rid with ⟨heq, _⟩ | ⟨row, hrow, hp, hr1, hr2, hm3, heq⟩
  · rw [heq]; exact hs
  · obtain ⟨hrowt, hrowid⟩ := findRow_mem hrow
    rw [heq]
    intro g hg x hx
    have hg2 : (if r0.id ∈ rowMatch t m row ∨ r0.id = rid then some st.counter
        else st.groups r0.id) = some g := hg
    show (if x ∈ rowMatch t m row ∨ x = rid then some st.counter else st.groups x) ≠ some g
    by_cases hcase : rid = r0.id
    · have hroweq : row = r0 := id_unique hnd hrowt hr0 (by rw [hrowid, hcase])
      rw [if_pos (Or.inr hcase.symm)] at hg2
      injection hg2 with hg2
      have hxcond : ¬(x ∈ rowMatch t m row ∨ x = rid) := by
        rintro (hxm | rfl)
        · exact hx (rowMatch_isolated_subset hnd hr0 hiso (hroweq ▸ hxm))
        · exact hx hcase
      rw [if_neg hxcond]
      intro hax
      have := hb x g hax
      omega
    · have hr0cond : ¬(r0.id ∈ rowMatch t m row ∨ r0.id = rid) := by
        rintro (hm0 | hm0)
        · exact notMem_rowMatch_isolated hnd hr0 hrowt hiso (hrowid ▸ hcase) hm0
        · exact hcase hm0.symm
      rw [if_neg hr0cond] at hg2
      by_cases hxcond : x ∈ rowMatch t m row ∨ x = rid
      · rw [if_pos hxcond]
        intro hh
        injection hh with hh
        have := hb r0.id g hg2
        omega
      · rw [if_neg hxcond]
        exact hs g hg2 x hx

lemma singInv_main_sweep {t : List Reaction} {m : String} (hnd : (t.map Reaction.id).Nodup)
    {r0 : Reaction} (hr0 : r0 ∈ t) (hiso : Isolated t r0) :
    SingInv r0 (main_sweep t m) := by
  have h := @foldl_preserve GroupState String (group_step t m)
    (fun st => MainInv t m st ∧ SingInv r0 st)
    (fun s a hs => ⟨mainInv_step hnd hs.1 a, singInv_step hnd hr0 hiso hs.1 hs.2 a⟩)
    (uniqueIds t) _ ⟨mainInv_init t m, fun g hg => Option.noConfusion hg⟩
  exact h.2

lemma sing_fin_step {r0 : Reaction} {P : Finset String}
    {acc : (String → Option Nat) × Nat}
    (h : (∀ x g, acc.1 x = some g → g < acc.2) ∧
      (∀ g, acc.1 r0.id = some g → ∀ x, x ≠ r0.id → acc.1 x ≠ some g)) (rid : String) :
    (∀ x g, (singleton_step P acc rid).1 x = some g → g < (singleton_step P acc rid).2) ∧
    (∀ g, (singleton_step P acc rid).1 r0.id = some g →
      ∀ x, x ≠ r0.id → (singleton_step P acc rid).1 x ≠ some g) := by
  obtain ⟨hbound, hsing⟩ := h
  unfold singleton_step
  by_cases h0 : rid ∈ P
  · rw [if_pos h0]; exact ⟨hbound, hsing⟩
  · rw [if_neg h0]
    constructor
    · intro x g hxg
      have hxg2 : (if x = rid then some acc.2 else acc.1 x) = some g := hxg
      show g < acc.2 + 1
      by_cases hxx : x = rid
      · rw [if_pos hxx] at hxg2
        injection hxg2 with hh
        omega
      · rw [if_neg hxx] at hxg2
        exact Nat.lt_succ_of_lt (hbound x g hxg2)
    · intro g hg x hx
      have hg2 : (if r0.id = rid then some acc.2 else acc.1 r0.id) = some g := hg
      show (if x = rid then some acc.2 else acc.1 x) ≠ some g
      by_cases hrr : r0.id = rid
      · rw [if_pos hrr] at hg2
        injection hg2 with hg2
        have hxrid : x ≠ rid := fun hh => hx (hh.trans hrr.symm)
        rw [if_neg hxrid]
        intro hax
        have := hbound x g hax
        omega
      · rw [if_neg hrr] at hg2
        by_cases hxx : x = rid
        · rw [if_pos hxx]
          intro hh
          injection hh with hh
          have := hbound r0.id g hg2
          omega
        · rw [if_neg hxx]
          exact hsing g hg2 x hx

/-! Swapped (reversed) reaction pairs. -/

lemma overlap_congr_left {l1 l1' l2 : List String} (h : ∀ p, p ∈ l1 ↔ p ∈ l1') :
    overlap l1 l2 ↔ overlap l1' l2 := by
  unfold overlap
  constructor <;> rintro ⟨p, hp1, hp2⟩
  · exact ⟨p, (h p).mp hp1, hp2⟩
  · exact ⟨p, (h p).mpr hp1, hp2⟩

lemma matchRel_and_swap {A B : Reaction}
    (hRP : ∀ p, p ∈ sReact A ↔ p ∈ sProd B) (hPR : ∀ p, p ∈ sProd A ↔ p ∈ sReact B)
    (h1 : sReact A ≠ []) (h2 : sProd A ≠ []) :
    matchRel "and" A B ∧ matchRel "and" B A := by
  obtain ⟨p, hp⟩ := List.exists_mem_of_ne_nil _ h1
  obtain ⟨q, hq⟩ := List.exists_mem_of_ne_nil _ h2
  have hpB : p ∈ sProd B := (hRP p).mp hp
  have hqB : q ∈ sReact B := (hPR q).mp hq
  constructor <;> simp only [matchRel, reduceIte]
  · exact Or.inr ⟨⟨q, hq, hqB⟩, ⟨p, hp, hpB⟩⟩
  · exact Or.inr ⟨⟨p, hpB, hp⟩, ⟨q, hqB, hq⟩⟩

lemma matchRel_congr_swap {A B : Reaction}
    (hRP : ∀ p, p ∈ sReact A ↔ p ∈ sProd B) (hPR : ∀ p, p ∈ sProd A ↔ p ∈ sReact B)
    (x : Reaction) : matchRel "and" A x ↔ matchRel "and" B x := by
  simp only [matchRel, reduceIte, overlap_congr_left hRP, overlap_congr_left hPR]
  exact or_comm

/-- The invariant tying a swapped pair together through the main sweep:
both processed or both not, and equal group entries. -/
def PairInv (A B : Reaction) (st : GroupState) : Prop :=
  (A.id ∈ st.processed ↔ B.id ∈ st.processed) ∧ st.groups A.id = st.groups B.id

lemma pairInv_step {t : List Reaction} (hnd : (t.map Reaction.id).Nodup)
    {A B : Reaction} (hA : A ∈ t) (hB : B ∈ t)
    (hRP : ∀ p, p ∈ sReact A ↔ p ∈ sProd B) (hPR : ∀ p, p ∈ sProd A ↔ p ∈ sReact B)
    (h1 : sReact A ≠ []) (h2 : sProd A ≠ [])
    {st : GroupState} (h : PairInv A B st) (rid : String) :
    PairInv A B (group_step t "and" st rid) := by
  obtain ⟨hproc, hgr⟩ := h
  rcases group_step_cases t "and" st rid with ⟨heq, _⟩ | ⟨row, hrow, hp, hrr1, hrr2, hm3, heq⟩
  · rw [heq]; exact ⟨hproc, hgr⟩
  · obtain ⟨hrowt, hrowid⟩ := findRow_mem hrow
    rw [heq]
    have hcond : (A.id ∈ rowMatch t "and" row ∨ A.id = rid) ↔
        (B.id ∈ rowMatch t "and" row ∨ B.id = rid) := by
      by_cases hca : rid = A.id
      · have hrowA : row = A := id_unique hnd hrowt hA (hrowid.trans hca)
        constructor
        · intro _
          left
          rw [hrowA, rowMatch_eq]
          exact (mem_match_set_iff hnd hB hA).mpr (matchRel_and_swap hRP hPR h1 h2).2
        · intro _
          right
          exact hca.symm
      · by_cases hcb : rid = B.id
        · have hrowB : row = B := id_unique hnd hrowt hB (hrowid.trans hcb)
          constructor
          · intro _
            right
            exact hcb.symm
          · intro _
            left
            rw [hrowB, rowMatch_eq]
            exact (mem_match_set_iff hnd hA hB).mpr (matchRel_and_swap hRP hPR h1 h2).1
        · constructor
          · rintro (hm | hm)
            · left
              rw [rowMatch_eq] at hm ⊢
              exact (mem_match_set_iff hnd hB hrowt).mpr
                ((matchRel_congr_swap hRP hPR row).mp ((mem_match_set_iff hnd hA hrowt).mp hm))
            · exact absurd hm.symm hca
          · rintro (hm | hm)
            · left
              rw [rowMatch_eq] at hm ⊢
              exact (mem_match_set_iff hnd hA hrowt).mpr
                ((matchRel_congr_swap hRP hPR row).mpr ((mem_match_set_iff hnd hB hrowt).mp hm))
            · exact absurd hm.symm hcb
    constructor
    · show (A.id ∈ (st.processed ∪ rowMatch t "and" row) ∪ {rid}) ↔
        (B.id ∈ (st.processed ∪ rowMatch t "and" row) ∪ {rid})
      simp only [Finset.mem_union, Finset.mem_singleton]
      constructor
      · rintro ((hh | hh) | hh)
        · exact Or.inl (Or.inl (hproc.mp hh))
        · rcases hcond.mp (Or.inl hh) with hh2 | hh2
          · exact Or.inl (Or.inr hh2)
          · exact Or.inr hh2
        · rcases hcond.mp (Or.inr hh) with hh2 | hh2
          · exact Or.inl (Or.inr hh2)
          · exact Or.inr hh2
      · rintro ((hh | hh) | hh)
        · exact Or.inl (Or.inl (hproc.mpr hh))
        · rcases hcond.mpr (Or.inl hh) with hh2 | hh2
          · exact Or.inl (Or.inr hh2)
          · exact Or.inr hh2
        · rcases hcond.mpr (Or.inr hh) with hh2 | hh2
          · exact Or.inl (Or.inr hh2)
          · exact Or.inr hh2
    · show (if A.id ∈ rowMatch t "and" row ∨ A.id = rid then some st.counter else st.groups A.id) =
        (if B.id ∈ rowMatch t "and" row ∨ B.id = rid then some st.counter else st.groups B.id)
      by_cases hcA : A.id ∈ rowMatch t "and" row ∨ A.id = rid
      · rw [if_pos hcA, if_pos (hcond.mp hcA)]
      · rw [if_neg hcA, if_neg (fun hcB => hcA (hcond.mpr hcB))]
        exact hgr

lemma mem_processed_after_fold {t : List Reaction} {m : String}
    (hnd : (t.map Reaction.id).Nodup) {A : Reaction} (hA : A ∈ t)
    (h1 : sReact A ≠ []) (h2 : sProd A ≠ []) :
    A.id ∈ (main_sweep t m).processed := by
  have hmem : A.id ∈ uniqueIds t := mem_uniqueIds.mpr ⟨A, hA, rfl⟩
  obtain ⟨l1, l2, hsplit⟩ := List.append_of_mem hmem
  unfold main_sweep
  rw [hsplit, List.foldl_append, List.foldl_cons]
  apply fold_processed_mono
  apply group_step_self_processed _ (findRow_self hnd hA) h1 h2
  rw [rowMatch_eq]
  exact (mem_match_set_iff hnd hA hA).mpr (matchRel_self h1 h2)

/-! Claim theorems. -/

/-- C4: after `_build_reaction_groups` on a valid table (unique ids, and no
token that makes `_precompute_phase_info` fault), every reaction id of the
table is assigned a group (the map being a function, the group is unique);
the set of assigned group numbers is exactly `{0, …, k-1}` for the final
counter `k`; and a reaction with no reactant or product overlap with any
other reaction gets a group shared with no other id.  Holds for every
method string. -/
theorem build_groups_partition (t : List Reaction) (m : String)
    (hnd : (t.map Reaction.id).Nodup) (hwf : WFTable t) :
    (∀ r ∈ t, ∃ g, (build_reaction_groups t m).1 r.id = some g) ∧
    (∀ g, (∃ r ∈ t, (build_reaction_groups t m).1 r.id = some g) ↔
      g < (build_reaction_groups t m).2) ∧
    (∀ r0 ∈ t, Isolated t r0 → ∀ r ∈ t, r.id ≠ r0.id →
      (build_reaction_groups t m).1 r.id ≠ (build_reaction_groups t m).1 r0.id) := by
  obtain ⟨ha, hb, hc, hd⟩ := mainInv_main_sweep (t := t) (m := m) hnd
  rw [build_reaction_groups_eq]
  obtain ⟨A, B, C, D⟩ := fin_fold t (main_sweep t m).processed (uniqueIds t)
    ((main_sweep t m).groups, (main_sweep t m).counter)
    (nodup_uniqueIds t)
    (fun x hx => (ha x).mpr hx)
    (fun x _ hxp => Option.not_isSome_iff_eq_none.mp (fun hs => hxp ((ha x).mp hs)))
    hb
    (fun g hg => by
      obtain ⟨a, hat, hag, _, _⟩ := hc g hg
      exact ⟨a, hat, hag⟩)
    (fun x hx => mem_uniqueIds.mp hx)
  refine ⟨?_, ?_, ?_⟩
  · intro r hr
    exact Option.isSome_iff_exists.mp (B r.id (mem_uniqueIds.mpr ⟨r, hr, rfl⟩))
  · intro g
    constructor
    · rintro ⟨r, _, hrg⟩
      exact C r.id g hrg
    · exact D g
  · intro r0 hr0 hiso r hr hne
    have hsing := @foldl_preserve ((String → Option Nat) × Nat) String
      (singleton_step (main_sweep t m).processed)
      (fun acc => (∀ x g, acc.1 x = some g → g < acc.2) ∧
        (∀ g, acc.1 r0.id = some g → ∀ x, x ≠ r0.id → acc.1 x ≠ some g))
      (fun s a hs => sing_fin_step hs a)
      (uniqueIds t) ((main_sweep t m).groups, (main_sweep t m).counter)
      ⟨hb, singInv_main_sweep hnd hr0 hiso⟩
    obtain ⟨g0, hg0⟩ := Option.isSome_iff_exists.mp (B r0.id (mem_uniqueIds.mpr ⟨r0, hr0, rfl⟩))
    intro hcontra
    exact hsing.2 g0 hg0 r.id hne (hcontra ▸ hg0)

/-- C7: on a valid table, if reaction A's stripped reactant set equals
reaction B's stripped product set and vice versa (both non-empty), then
`_build_reaction_groups("and")` assigns A and B the same group number, and
both are assigned. -/
theorem build_groups_swapped_same_group (t : List Reaction)
    (hnd : (t.map Reaction.id).Nodup) (hwf : WFTable t)
    (A B : Reaction) (hA : A ∈ t) (hB : B ∈ t)
    (hRP : ∀ p, p ∈ sReact A ↔ p ∈ sProd B)
    (hPR : ∀ p, p ∈ sProd A ↔ p ∈ sReact B)
    (h1 : sReact A ≠ []) (h2 : sProd A ≠ []) :
    (build_reaction_groups t "and").1 A.id = (build_reaction_groups t "and").1 B.id ∧
    ((build_reaction_groups t "and").1 A.id).isSome := by
  have hpair : PairInv A B (main_sweep t "and") := by
    unfold main_sweep
    exact @foldl_preserve GroupState String (group_step t "and") (PairInv A B)
      (fun s a hs => pairInv_step hnd hA hB hRP hPR h1 h2 hs a)
      (uniqueIds t) _ ⟨by simp, rfl⟩
  have hAproc := mem_processed_after_fold (m := "and") hnd hA h1 h2
  have hBproc : B.id ∈ (main_sweep t "and").processed := hpair.1.mp hAproc
  rw [build_reaction_groups_eq]
  constructor
  · rw [fin_fold_preserve (uniqueIds t) _ A.id hAproc,
      fin_fold_preserve (uniqueIds t) _ B.id hBproc]
    exact hpair.2
  · rw [fin_fold_preserve (uniqueIds t) _ A.id hAproc]
    exact ((mainInv_main_sweep hnd).1 A.id).mpr hAproc

/-- C7 witness: the swapped pair `A: x => y`, `B: y => x` lands in one
group under `method="and"`. -/
theorem build_groups_swapped_same_group_witness :
    (build_reaction_groups tSwap "and").1 (Reaction.mk "A" ["x"] ["y"]).id =
      (build_reaction_groups tSwap "and").1 (Reaction.mk "B" ["y"] ["x"]).id ∧
    ((build_reaction_groups tSwap "and").1 (Reaction.mk "A" ["x"] ["y"]).id).isSome :=
  build_groups_swapped_same_group tSwap (by decide) (by decide)
    (Reaction.mk "A" ["x"] ["y"]) (Reaction.mk "B" ["y"] ["x"])
    (by decide) (by decide)
    (fun p => Iff.rfl) (fun p => Iff.rfl) (by decide) (by decide)

/-- C4 witness: the partition invariants instantiated on the concrete
two-reaction scenario table with the default method. -/
theorem build_groups_partition_witness :
    (∀ r ∈ tScenario, ∃ g, (build_reaction_groups tScenario "and").1 r.id = some g) ∧
    (∀ g, (∃ r ∈ tScenario, (build_reaction_groups tScenario "and").1 r.id = some g) ↔
      g < (build_reaction_groups tScenario "and").2) ∧
    (∀ r0 ∈ tScenario, Isolated tScenario r0 → ∀ r ∈ tScenario, r.id ≠ r0.id →
      (build_reaction_groups tScenario "and").1 r.id ≠
        (build_reaction_groups tScenario "and").1 r0.id) :=
  build_groups_partition tScenario "and" (by decide) (by decide)

lemma mem_get_ids_reactant_row {t : List Reaction} (hnd : (t.map Reaction.id).Nodup)
    {r : Reaction} (hr : r ∈ t) {P : List String} :
    r.id ∈ get_ids_for_phases P (reactant_lookup t) ↔
      ∃ p ∈ strip_coefficients r.reactants, p ∈ P := by
  rw [mem_get_ids_for_phases]
  constructor
  · rintro ⟨p, hpP, hmem⟩
    rcases mem_reactant_lookup.mp hmem with ⟨r2, hr2, hid, hps⟩
    have heq : r2 = r := id_unique hnd hr2 hr hid
    subst heq
    exact ⟨p, hps, hpP⟩
  · rintro ⟨p, hps, hpP⟩
    exact ⟨p, hpP, mem_reactant_lookup.mpr ⟨r, hr, rfl, hps⟩⟩

/-- C5: on a valid table, `filter_by_reactants` with a non-empty phase list
returns exactly the rows whose coefficient-stripped reactant list meets the
requested phases (the no-match case being the empty table), and with an
empty phase list returns the whole original table. -/
theorem filter_by_reactants_spec (t : List Reaction) (P : List String)
    (hnd : (t.map Reaction.id).Nodup) (hwf : WFTable t) :
    (P = [] → filter_by_reactants t P = t) ∧
    (P ≠ [] → filter_by_reactants t P =
      t.filter (fun r => (strip_coefficients r.reactants).any (fun p => decide (p ∈ P)))) := by
  constructor
  · intro hP
    unfold filter_by_reactants
    rw [if_pos hP]
  · intro hP
    unfold filter_by_reactants
    rw [if_neg hP]
    show (if get_ids_for_phases P (reactant_lookup t) = ∅ then []
      else t.filter (fun r => decide (r.id ∈ get_ids_for_phases P (reactant_lookup t)))) = _
    by_cases hE : get_ids_for_phases P (reactant_lookup t) = ∅
    · rw [if_pos hE]
      symm
      rw [List.filter_eq_nil_iff]
      intro r hr hany
      simp only [List.any_eq_true, decide_eq_true_eq] at hany
      obtain ⟨p, hps, hpP⟩ := hany
      have : r.id ∈ get_ids_for_phases P (reactant_lookup t) :=
        (mem_get_ids_reactant_row hnd hr).mpr ⟨p, hps, hpP⟩
      rw [hE] at this
      exact absurd this (by simp)
    · rw [if_neg hE]
      apply List.filter_congr
      intro r hr
      rw [Bool.eq_iff_iff]
      simp only [decide_eq_true_eq, List.any_eq_true]
      exact mem_get_ids_reactant_row hnd hr

/-- C5 witness: the filter characterization instantiated on the scenario
table with the phase list `["ky"]` (and the empty list). -/
theorem filter_by_reactants_spec_witness :
    (["ky"] = ([] : List String) → filter_by_reactants tScenario ["ky"] = tScenario) ∧
    (["ky"] ≠ ([] : List String) → filter_by_reactants tScenario ["ky"] =
      tScenario.filter (fun r =>
        (strip_coefficients r.reactants).any (fun p => decide (p ∈ (["ky"] : List String))))) :=
  filter_by_reactants_spec tScenario ["ky"] (by decide) (by decide)

lemma core_filter_subset (t : List Reaction) (fR fP rR rP : Finset String) :
    (if fR = ∅ then ([] : List Reaction)
      else if fP = ∅ then []
      else if (fR ∩ fP) ∪ (rR ∩ rP) = ∅ then []
      else t.filter (fun r => decide (r.id ∈ (fR ∩ fP) ∪ (rR ∩ rP)))) ⊆
    (if fR = ∅ then []
      else if fP = ∅ then []
      else if (fR ∪ fP) ∪ (rR ∪ rP) = ∅ then []
      else t.filter (fun r => decide (r.id ∈ (fR ∪ fP) ∪ (rR ∪ rP)))) := by
  by_cases h1 : fR = ∅
  · rw [if_pos h1, if_pos h1]
    exact fun a ha => ha
  · rw [if_neg h1, if_neg h1]
    by_cases h2 : fP = ∅
    · rw [if_pos h2, if_pos h2]
      exact fun a ha => ha
    · rw [if_neg h2, if_neg h2]
      by_cases h3 : (fR ∩ fP) ∪ (rR ∩ rP) = ∅
      · rw [if_pos h3]
        exact List.nil_subset _
      · rw [if_neg h3]
        have hsub : (fR ∩ fP) ∪ (rR ∩ rP) ⊆ (fR ∪ fP) ∪ (rR ∪ rP) := by
          intro x hx
          simp only [Finset.mem_union, Finset.mem_inter] at hx ⊢
          tauto
        have h4 : ¬((fR ∪ fP) ∪ (rR ∪ rP) = ∅) := by
          intro h4
          obtain ⟨x, hx⟩ := Finset.nonempty_iff_ne_empty.mpr h3
          have hx2 := hsub hx
          rw [h4] at hx2
          exact absurd hx2 (by simp)
        rw [if_neg h4]
        intro r hr
        rw [List.mem_filter] at hr ⊢
        exact ⟨hr.1, decide_eq_true (hsub (of_decide_eq_true hr.2))⟩

/-- C6: for every table and all phase lists (empty or not), the rows
returned by `filter_by_reactants_and_products` with `method="and"` are a
subset of those returned with `method="or"`. -/
theorem filter_and_subset_or (t : List Reaction) (R Pr : List String) :
    filter_by_reactants_and_products t R Pr "and" ⊆
      filter_by_reactants_and_products t R Pr "or" := by
  unfold filter_by_reactants_and_products
  by_cases h1 : R = [] ∧ Pr = []
  · rw [if_pos h1, if_pos h1]
    exact fun a ha => ha
  · rw [if_neg h1, if_neg h1]
    by_cases h2 : Pr = []
    · rw [if_pos h2, if_pos h2]
      exact fun a ha => ha
    · rw [if_neg h2, if_neg h2]
      by_cases h3 : R = []
      · rw [if_pos h3, if_pos h3]
        exact fun a ha => ha
      · rw [if_neg h3, if_neg h3]
        exact core_filter_subset t
          (get_ids_for_phases R (reactant_lookup t))
          (get_ids_for_phases Pr (product_lookup t))
          (get_ids_for_phases R (product_lookup t))
          (get_ids_for_phases Pr (reactant_lookup t))

/-- C6 witness: the subset relation at the scenario table and the spec's
query `(["ky"], ["sil"])`. -/
theorem filter_and_subset_or_witness :
    filter_by_reactants_and_products tScenario ["ky"] ["sil"] "and" ⊆
      filter_by_reactants_and_products tScenario ["ky"] ["sil"] "or" :=
  filter_and_subset_or tScenario ["ky"] ["sil"]

lemma filter_rp_core (t : List Reaction) (R Pr : List String) (m : String)
    (hR : R ≠ []) (hPr : Pr ≠ []) :
    filter_by_reactants_and_products t R Pr m =
      (if get_ids_for_phases R (reactant_lookup t) = ∅ then []
        else if get_ids_for_phases Pr (product_lookup t) = ∅ then []
        else if match_set t m R Pr = ∅ then []
        else t.filter (fun r => decide (r.id ∈ match_set t m R Pr))) := by
  unfold filter_by_reactants_and_products
  rw [if_neg (fun hand => hR hand.1), if_neg hPr, if_neg hR]
  rfl

/-- C2 (amended): whenever the forward-reactant and forward-product match
sets are both non-empty, the short-circuited `"and"` filter agrees with the
un-short-circuited formulation; the non-emptiness hypotheses are what the
short-circuit costs (when one is empty the code returns the empty table even
though the reverse intersection may be non-empty). -/
theorem filter_and_shortcircuit_agrees (t : List Reaction) (R Pr : List String)
    (h1 : get_ids_for_phases R (reactant_lookup t) ≠ ∅)
    (h2 : get_ids_for_phases Pr (product_lookup t) ≠ ∅) :
    filter_by_reactants_and_products t R Pr "and" = filter_rp_and_unshort t R Pr := by
  have hR : R ≠ [] := fun h => h1 (by rw [h]; rfl)
  have hPr : Pr ≠ [] := fun h => h2 (by rw [h]; rfl)
  rw [filter_rp_core t R Pr "and" hR hPr, if_neg h1, if_neg h2]
  by_cases h3 : match_set t "and" R Pr = ∅
  · rw [if_pos h3]
    symm
    rw [show filter_rp_and_unshort t R Pr =
      t.filter (fun r => decide (r.id ∈ match_set t "and" R Pr)) from rfl]
    rw [List.filter_eq_nil_iff]
    intro r _ hmem
    have hmem2 := of_decide_eq_true hmem
    rw [h3] at hmem2
    exact absurd hmem2 (by simp)
  · rw [if_neg h3]
    rfl

/-- C2 witness: agreement at the one-reaction table `A: a => b` with the
query `(["a"], ["b"])`, whose forward match sets are non-empty. -/
theorem filter_and_shortcircuit_agrees_witness :
    filter_by_reactants_and_products tOne ["a"] ["b"] "and" =
      filter_rp_and_unshort tOne ["a"] ["b"] :=
  filter_and_shortcircuit_agrees tOne ["a"] ["b"] (by decide) (by decide)

/-- C2 counterexample: at the one-reaction table `A: a => b` with the query
`(["b"], ["a"])`, the un-short-circuited formulation returns row A (via the
reverse intersection) while the code's short-circuit returns the empty
table — so the short-circuit is a semantic difference, refuting the claim
for these non-empty phase lists. -/
theorem filter_and_shortcircuit_differs :
    Reaction.mk "A" ["a"] ["b"] ∈ filter_rp_and_unshort tOne ["b"] ["a"] ∧
    Reaction.mk "A" ["a"] ["b"] ∉ filter_by_reactants_and_products tOne ["b"] ["a"] "and" := by
  decide

/-- C3 (amended): with both phase lists non-empty, the `"or"` filter returns
exactly the rows whose id lies in the union of the four match sets,
provided the forward-reactant and forward-product match sets are non-empty;
the short-circuit (which runs before the method branch) otherwise returns
the empty table. -/
theorem filter_or_union_spec (t : List Reaction) (R Pr : List String)
    (h1 : get_ids_for_phases R (reactant_lookup t) ≠ ∅)
    (h2 : get_ids_for_phases Pr (product_lookup t) ≠ ∅) :
    filter_by_reactants_and_products t R Pr "or" = filter_rp_or_union t R Pr := by
  have hR : R ≠ [] := fun h => h1 (by rw [h]; rfl)
  have hPr : Pr ≠ [] := fun h => h2 (by rw [h]; rfl)
  rw [filter_rp_core t R Pr "or" hR hPr, if_neg h1, if_neg h2]
  by_cases h3 : match_set t "or" R Pr = ∅
  · rw [if_pos h3]
    symm
    rw [show filter_rp_or_union t R Pr =
      t.filter (fun r => decide (r.id ∈ match_set t "or" R Pr)) from rfl]
    rw [List.filter_eq_nil_iff]
    intro r _ hmem
    have hmem2 := of_decide_eq_true hmem
    rw [h3] at hmem2
    exact absurd hmem2 (by simp)
  · rw [if_neg h3]
    rfl

/-- C3 witness: agreement at the one-reaction table `A: a => b` with the
query `(["a"], ["b"])`. -/
theorem filter_or_union_spec_witness :
    filter_by_reactants_and_products tOne ["a"] ["b"] "or" =
      filter_rp_or_union tOne ["a"] ["b"] :=
  filter_or_union_spec tOne ["a"] ["b"] (by decide) (by decide)

/-- C3 counterexample: at the one-reaction table `A: a => b` with the
non-empty lists `(["b"], ["b"])`, row A lies in the union of the four match
sets (its product `b` matches), yet the code returns the empty table because
the forward-reactant match set is empty — refuting the claim's "no
precondition that the forward match sets be non-empty". -/
theorem filter_or_union_differs :
    Reaction.mk "A" ["a"] ["b"] ∈ filter_rp_or_union tOne ["b"] ["b"] ∧
    Reaction.mk "A" ["a"] ["b"] ∉ filter_by_reactants_and_products tOne ["b"] ["b"] "or" := by
  decide

lemma match_set_ne_and (t : List Reaction) {m : String} (hm : m ≠ "and")
    (R Pr : List String) : match_set t m R Pr = match_set t "or" R Pr := by
  unfold match_set
  rw [if_neg hm, if_neg (by decide : ¬("or" : String) = "and")]

lemma rowMatch_ne_and (t : List Reaction) {m : String} (hm : m ≠ "and") :
    rowMatch t m = rowMatch t "or" := by
  funext row
  unfold rowMatch
  rw [match_set_ne_and t hm]

lemma group_step_ne_and (t : List Reaction) {m : String} (hm : m ≠ "and") :
    group_step t m = group_step t "or" := by
  funext st rid
  unfold group_step
  rw [rowMatch_ne_and t hm]

/-- C10: every method string other than `"and"` (for example `"xor"` or the
empty string) behaves exactly as `"or"` does, in both the combined filter
and the group-building sweep, and no error is raised (the functions are
total). -/
theorem unknown_method_behaves_as_or (t : List Reaction) (R Pr : List String)
    (m : String) (hm : m ≠ "and") :
    filter_by_reactants_and_products t R Pr m =
      filter_by_reactants_and_products t R Pr "or" ∧
    build_reaction_groups t m = build_reaction_groups t "or" := by
  constructor
  · by_cases h1 : R = [] ∧ Pr = []
    · unfold filter_by_reactants_and_products
      rw [if_pos h1, if_pos h1]
    · by_cases h2 : Pr = []
      · unfold filter_by_reactants_and_products
        rw [if_neg h1, if_neg h1, if_pos h2, if_pos h2]
      · by_cases h3 : R = []
        · unfold filter_by_reactants_and_products
          rw [if_neg h1, if_neg h1, if_neg h2, if_neg h2, if_pos h3, if_pos h3]
        · rw [filter_rp_core t R Pr m h3 h2, filter_rp_core t R Pr "or" h3 h2,
            match_set_ne_and t hm]
  · unfold build_reaction_groups main_sweep
    rw [group_step_ne_and t hm]

/-- C10 witness: the unrecognized method `"xor"` at the scenario table and
the spec's query coincides with `"or"`, for the filter and the grouping. -/
theorem unknown_method_behaves_as_or_witness :
    filter_by_reactants_and_products tScenario ["ky"] ["sil"] "xor" =
      filter_by_reactants_and_products tScenario ["ky"] ["sil"] "or" ∧
    build_reaction_groups tScenario "xor" = build_reaction_groups tScenario "or" :=
  unknown_method_behaves_as_or tScenario ["ky"] ["sil"] "xor" (by decide)

/-- C1 counterexample: on the spec's two-reaction scenario table,
`method="and"` grouping gives R1 and R2 different group ids and different
color keys — refuting "same group id, identical color keys".  Under `"and"`
the reverse rule needs both reverse match sets non-empty, and R1's
reverse-reactant set (reactions producing `ky`) is empty. -/
theorem scenario_and_distinct :
    processor_groups tScenario "R1" ≠ processor_groups tScenario "R2" ∧
    get_color_for_reaction tScenario "R1" ≠ get_color_for_reaction tScenario "R2" := by
  decide

/-- C1 (amended): on the scenario table, `method="and"` (the processor
default) assigns R1 group 0 and R2 group 1, their color keys are the first
and second palette entries (distinct); a `method="or"` grouping does place
R1 and R2 in the same group. -/
theorem scenario_groups_and_colors :
    processor_groups tScenario "R1" = some 0 ∧
    processor_groups tScenario "R2" = some 1 ∧
    get_color_for_reaction tScenario "R1" = "rgb(228,26,28)" ∧
    get_color_for_reaction tScenario "R2" = "rgb(55,126,184)" ∧
    (build_reaction_groups tScenario "or").1 "R1" =
      (build_reaction_groups tScenario "or").1 "R2" := by
  decide

/-- C8 counterexample: construction is not mutation-free — on a table whose
reactants cell is not a list (e.g. NaN), `_precompute_phase_info` replaces
that cell of the source table in place by an empty list. -/
theorem construction_mutates_nonlist_cell :
    normalizeTable [{ id := "A", reactants := RawCell.nonlist, products := RawCell.strs [] }] ≠
      [{ id := "A", reactants := RawCell.nonlist, products := RawCell.strs [] }] := by
  decide

lemma normalizeCell_eq_iff (c : RawCell) : normalizeCell c = c ↔ c.isListB = true := by
  cases c <;> simp [normalizeCell, RawCell.isListB]

lemma normalizeRow_eq_iff (r : RawReaction) :
    normalizeRow r = r ↔ r.reactants.isListB = true ∧ r.products.isListB = true := by
  constructor
  · intro h
    have h1 : normalizeCell r.reactants = r.reactants := congrArg RawReaction.reactants h
    have h2 : normalizeCell r.products = r.products := congrArg RawReaction.products h
    exact ⟨(normalizeCell_eq_iff _).mp h1, (normalizeCell_eq_iff _).mp h2⟩
  · rintro ⟨h1, h2⟩
    unfold normalizeRow
    rw [(normalizeCell_eq_iff r.reactants).mpr h1, (normalizeCell_eq_iff r.products).mpr h2]

/-- C8 (amended): construction normalizes the stored table in place — it
leaves the source table's rows and cell values unchanged exactly when every
reactants/products cell is already a list (the non-list cells are otherwise
replaced by empty lists).  The query and grouping operations are pure
functions of the stored table (no method of the source assigns to
`self.df`/`self._original_df` after construction), and
`get_colors_for_filtered_df` works on a copy of its input. -/
theorem construction_preserves_table_iff (t : List RawReaction) :
    normalizeTable t = t ↔
      ∀ r ∈ t, r.reactants.isListB = true ∧ r.products.isListB = true := by
  unfold normalizeTable
  induction t with
  | nil => simp
  | cons r rs ih =>
    simp only [List.map_cons, List.cons.injEq, List.mem_cons]
    constructor
    · rintro ⟨h1, h2⟩ x hx
      rcases hx with rfl | hx
      · exact (normalizeRow_eq_iff x).mp h1
      · exact (ih.mp h2) x hx
    · intro h
      exact ⟨(normalizeRow_eq_iff r).mpr (h r (Or.inl rfl)),
        ih.mpr (fun x hx => h x (Or.inr hx))⟩

/-- C8 witness: a table whose cells are all lists is left unchanged by
construction. -/
theorem construction_preserves_table_iff_witness :
    normalizeTable [{ id := "A", reactants := RawCell.strs ["a"], products := RawCell.strs ["b"] }] =
      [{ id := "A", reactants := RawCell.strs ["a"], products := RawCell.strs ["b"] }] :=
  (construction_preserves_table_iff _).mpr (by decide)

/-- C9 counterexample: a non-empty table with exactly the claim's six
required fields (in the code's column names) is still rejected — the code
also requires `plot_type` and raises the missing-columns error, refuting
"fails with a SchemaError exactly when one of the six fields is absent". -/
theorem post_init_six_fields_fails :
    post_init spec_required_fields 1 false =
      Except.error (InitError.schemaError ["plot_type"]) := by
  decide

lemma missing_nil_iff (cols : List String) :
    requiredCols.filter (fun c => !cols.contains c) = [] ↔ ∀ c ∈ requiredCols, c ∈ cols := by
  rw [List.filter_eq_nil_iff]
  constructor
  · intro h c hc
    have hcc := h c hc
    simp only [Bool.not_eq_true', Bool.not_eq_false] at hcc
    obtain ⟨x, hx1, hx2⟩ := List.contains_iff_exists_mem_beq.mp hcc
    exact (beq_iff_eq.mp hx2) ▸ hx1
  · intro h c hc
    simp only [Bool.not_eq_true', Bool.not_eq_false]
    exact List.contains_iff_exists_mem_beq.mpr ⟨c, h c hc, beq_iff_eq.mpr rfl⟩

/-- C9 (amended): construction fails with the validation (empty-table)
error exactly when the table is empty (no rows or no columns) and
allow-empty is off, this check preceding the schema check; otherwise it
fails with the schema (missing-columns) error exactly when one of the seven
required columns {id, reactants, products, type, plot_type, rxn, ref} is
absent; and it succeeds — yielding an empty index for an empty table —
exactly when the emptiness gate passes and all seven columns are present.
`Except.error` models raising, so no partial index survives a failure. -/
theorem post_init_spec (cols : List String) (nrows : Nat) (allowEmpty : Bool) :
    (post_init cols nrows allowEmpty = Except.error InitError.validationError ↔
      (¬allowEmpty = true ∧ (nrows = 0 ∨ cols = []))) ∧
    ((∃ miss, post_init cols nrows allowEmpty = Except.error (InitError.schemaError miss)) ↔
      (¬(¬allowEmpty = true ∧ (nrows = 0 ∨ cols = [])) ∧ ∃ c ∈ requiredCols, c ∉ cols)) ∧
    (post_init cols nrows allowEmpty = Except.ok () ↔
      (¬(¬allowEmpty = true ∧ (nrows = 0 ∨ cols = [])) ∧ ∀ c ∈ requiredCols, c ∈ cols)) := by
  unfold post_init
  by_cases hE : ¬allowEmpty = true ∧ (nrows = 0 ∨ cols = [])
  · rw [if_pos hE]
    refine ⟨by simp [hE], ?_, by simp [hE]⟩
    constructor
    · rintro ⟨miss, hmiss⟩
      exact absurd hmiss (by simp)
    · rintro ⟨hcontra, _⟩
      exact absurd hE hcontra
  · rw [if_neg hE]
    by_cases hM : requiredCols.filter (fun c => !cols.contains c) = []
    · rw [if_neg (by simpa using hM)]
      refine ⟨iff_of_false (by simp) hE, ?_,
        iff_of_true rfl ⟨hE, (missing_nil_iff cols).mp hM⟩⟩
      refine iff_of_false ?_ ?_
      · rintro ⟨miss, hmiss⟩
        exact absurd hmiss (by simp)
      · rintro ⟨_, c, hc, hcc⟩
        exact hcc ((missing_nil_iff cols).mp hM c hc)
    · rw [if_pos (by simpa using hM)]
      refine ⟨iff_of_false (by simp) hE, ?_, iff_of_false (by simp) ?_⟩
      · refine iff_of_true ⟨requiredCols.filter (fun c => !cols.contains c), rfl⟩ ⟨hE, ?_⟩
        obtain ⟨c, hc⟩ := List.exists_mem_of_ne_nil _ hM
        rw [List.mem_filter] at hc
        refine ⟨c, hc.1, fun hmem => ?_⟩
        have hfalse : cols.contains c = false := by
          have hb := hc.2
          simp only [Bool.not_eq_true'] at hb
          exact hb
        have htrue : cols.contains c = true :=
          List.contains_iff_exists_mem_beq.mpr ⟨c, hmem, beq_iff_eq.mpr rfl⟩
        rw [hfalse] at htrue
        exact Bool.noConfusion htrue
      · rintro ⟨_, hall⟩
        exact hM ((missing_nil_iff cols).mpr hall)

/-- C9 witness: the characterization instantiated at a complete column set
with one row and allow-empty off (construction succeeds there). -/
theorem post_init_spec_witness :
    (post_init requiredCols 1 false = Except.error InitError.validationError ↔
      (¬false = true ∧ (1 = 0 ∨ requiredCols = []))) ∧
    ((∃ miss, post_init requiredCols 1 false = Except.error (InitError.schemaError miss)) ↔
      (¬(¬false = true ∧ (1 = 0 ∨ requiredCols = [])) ∧ ∃ c ∈ requiredCols, c ∉ requiredCols)) ∧
    (post_init requiredCols 1 false = Except.ok () ↔
      (¬(¬false = true ∧ (1 = 0 ∨ requiredCols = [])) ∧ ∀ c ∈ requiredCols, c ∈ requiredCols)) :=
  post_init_spec requiredCols 1 false

end RxnDB
